import Mathlib

set_option maxHeartbeats 1000000

/-!
Shallow embedding of the laqueue job queue (Go core in `queue/queue.go` and
`worker/worker.go`, TypeScript port in `ts/src`): a persistent queue of items
stored as rows of the `queue_items` table, claimed and retired by workers.

Timestamps and durations are modelled as `Int` (Go durations are int64
nanoseconds); payloads are opaque byte sequences (`List Nat`); the `status`
column keeps the source's string literals.
-/

namespace LaQueue

/-- A row of the `queue_items` table / the Go `QueueItem` struct
(`queue/queue.go`).  Schema defaults: `status = 'pending'`, `attempts = 0`,
`created_at = scheduled_at = now`, `last_attempt_at` NULL. -/
structure QueueItem where
  id : Int
  queueName : String
  payload : List Nat
  createdAt : Int
  scheduledAt : Int
  status : String
  attempts : Int
  lastAttemptAt : Option Int
  deriving DecidableEq, Repr

/-- The persisted state of the store: the `queue_items` table (in insertion
order, as SQLite keeps rows by rowid) plus the next AUTOINCREMENT id. -/
structure Store where
  rows : List QueueItem
  nextId : Int
  deriving DecidableEq, Repr

/-- `Enqueue` (`queue/queue.go` lines 37-52): INSERT with schema defaults, so
`status = pending`, `attempts = 0`, `scheduled_at = created_at = now`.  Returns
the assigned id. -/
def enqueue (s : Store) (qn : String) (payload : List Nat) (now : Int) : Store × Int :=
  ({ rows := s.rows ++ [⟨s.nextId, qn, payload, now, now, "pending", 0, none⟩],
     nextId := s.nextId + 1 }, s.nextId)

/-- `EnqueueWithDelay` (`queue/queue.go` lines 55-72): as `enqueue` but with
`scheduled_at = now + delay`. -/
def enqueueWithDelay (s : Store) (qn : String) (payload : List Nat) (now delay : Int) :
    Store × Int :=
  ({ rows := s.rows ++ [⟨s.nextId, qn, payload, now, now + delay, "pending", 0, none⟩],
     nextId := s.nextId + 1 }, s.nextId)

/-- The WHERE clause of the Dequeue SELECT:
`queue_name = ? AND status = 'pending' AND scheduled_at <= ?`. -/
def eligible (qn : String) (now : Int) (r : QueueItem) : Bool :=
  r.queueName == qn && r.status == "pending" && decide (r.scheduledAt ≤ now)

/-- The possible results of the Dequeue SELECT
(`ORDER BY scheduled_at ASC LIMIT 1`): the SQL fixes only that the returned row
is eligible with minimal `scheduled_at`; among rows tied on `scheduled_at` the
engine's choice is unspecified, so we model the selection as the list of all
eligible rows attaining the minimum (in table order). -/
def selectCandidates (s : Store) (qn : String) (now : Int) : List QueueItem :=
  let el := s.rows.filter (eligible qn now)
  el.filter (fun r => el.all (fun r2 => decide (r.scheduledAt ≤ r2.scheduledAt)))

/-- One concrete resolution of the SELECT's tie nondeterminism: the first
candidate in table (rowid) order.  Used to make `dequeue` an executable
function. -/
def selectOne (s : Store) (qn : String) (now : Int) : Option QueueItem :=
  (selectCandidates s qn now).head?

/-- The WHERE clause shared by the Dequeue UPDATE and by Complete / Fail /
RetryWithDelay: `id = ? AND queue_name = ?` — and nothing else. -/
def claimMatch (id : Int) (qn : String) (r : QueueItem) : Bool :=
  r.id == id && r.queueName == qn

/-- A SQL UPDATE: maps the write over every row satisfying the predicate and
also reports the number of rows affected (Go's `Result.RowsAffected` /
better-sqlite3's `result.changes`). -/
def updateWhere (s : Store) (p : QueueItem → Bool) (f : QueueItem → QueueItem) :
    Store × Nat :=
  ({ s with rows := s.rows.map fun r => if p r then f r else r },
   (s.rows.filter p).length)

/-- The UPDATE inside Dequeue (`queue/queue.go` lines 103-107):
`SET status='processing', attempts=attempts+1, last_attempt_at=?
WHERE id = ? AND queue_name = ?`.  Note the predicate: no `status = 'pending'`
guard. -/
def claimUpdate (s : Store) (id : Int) (qn : String) (now : Int) : Store :=
  (updateWhere s (claimMatch id qn)
    (fun r => { r with status := "processing", attempts := r.attempts + 1,
                       lastAttemptAt := some now })).1

/-- The claim update as the spec words it (§4.2 step 3): the same write, but
guarded by the selection predicate `status = 'pending'`.  Defined only to be
compared with `claimUpdate`, the update the source actually performs. -/
def claimUpdateGuarded (s : Store) (id : Int) (qn : String) (now : Int) : Store :=
  (updateWhere s (fun r => claimMatch id qn r && r.status == "pending")
    (fun r => { r with status := "processing", attempts := r.attempts + 1,
                       lastAttemptAt := some now })).1

/-- `Dequeue` (`queue/queue.go` lines 75-121): inside one transaction, SELECT
one eligible row; if none, return nil (no error); otherwise run the UPDATE
(whose affected-row count is never examined), commit, and return the scanned
item with `status`, `attempts` and `last_attempt_at` overwritten in memory
(lines 116-118). -/
def dequeue (s : Store) (qn : String) (now : Int) : Store × Option QueueItem :=
  match selectOne s qn now with
  | none => (s, none)
  | some item =>
      (claimUpdate s item.id qn now,
       some { item with status := "processing", attempts := item.attempts + 1,
                        lastAttemptAt := some now })

/-- Number of rows a Complete / Fail / RetryWithDelay UPDATE would affect. -/
def matchedCount (s : Store) (id : Int) (qn : String) : Nat :=
  (s.rows.filter (claimMatch id qn)).length

/-- Go `Complete` (`queue/queue.go` lines 124-131):
`SET status='completed' WHERE id = ? AND queue_name = ?`.  The `Exec` result is
discarded (`_, err :=`) and the function returns only the error, modelled as
`Option String` and `none` on the success path. -/
def completeGo (s : Store) (id : Int) (qn : String) : Store × Option String :=
  ((updateWhere s (claimMatch id qn) (fun r => { r with status := "completed" })).1, none)

/-- Go `Fail` (`queue/queue.go` lines 134-141): as `completeGo` with
`status='failed'`. -/
def failGo (s : Store) (id : Int) (qn : String) : Store × Option String :=
  ((updateWhere s (claimMatch id qn) (fun r => { r with status := "failed" })).1, none)

/-- Go `RetryWithDelay` (`queue/queue.go` lines 144-152):
`SET status='pending', scheduled_at = now + delay WHERE id = ? AND queue_name = ?`,
returning only the error. -/
def retryWithDelayGo (s : Store) (id : Int) (qn : String) (delay now : Int) :
    Store × Option String :=
  ((updateWhere s (claimMatch id qn)
      (fun r => { r with status := "pending", scheduledAt := now + delay })).1, none)

/-- TypeScript `complete` (`ts/src/queue.ts`): same UPDATE, but returns
`result.changes > 0`. -/
def completeTs (s : Store) (id : Int) (qn : String) : Store × Bool :=
  let u := updateWhere s (claimMatch id qn) (fun r => { r with status := "completed" })
  (u.1, decide (0 < u.2))

/-- TypeScript `fail`: returns `result.changes > 0`. -/
def failTs (s : Store) (id : Int) (qn : String) : Store × Bool :=
  let u := updateWhere s (claimMatch id qn) (fun r => { r with status := "failed" })
  (u.1, decide (0 < u.2))

/-- TypeScript `retryWithDelay`: returns `result.changes > 0`. -/
def retryWithDelayTs (s : Store) (id : Int) (qn : String) (delay now : Int) : Store × Bool :=
  let u := updateWhere s (claimMatch id qn)
    (fun r => { r with status := "pending", scheduledAt := now + delay })
  (u.1, decide (0 < u.2))

/-- One second in Go `time.Duration` units (nanoseconds). -/
def second : Int := 1000000000

/-- Reduce an integer to the int64 value with the same low 64 bits (Go integer
arithmetic wraps). -/
def wrap64 (x : Int) : Int :=
  (x + 2 ^ 63) % 2 ^ 64 - 2 ^ 63

/-- The delay computed by the Go worker for a retry
(`worker/worker.go` line 93): `time.Duration(1<<uint(item.Attempts)) * time.Second`.
The shift is on int64 (`1 << 63` wraps negative, a shift count outside 0..63 —
including the huge `uint` image of a negative attempts value — yields 0) and the
multiplication by `time.Second` also wraps at 64 bits. -/
def backoffGo (attempts : Int) : Int :=
  let shifted : Int :=
    if 0 ≤ attempts ∧ attempts < 64 then wrap64 ((2 : Int) ^ attempts.toNat) else 0
  wrap64 (shifted * second)

/-- The TypeScript worker's retry delay (`ts/src/worker.ts` lines 96-99):
`min(backoffDelay * 2^(attempts-1) * jitter, 30000)` milliseconds, with
`jitter = 0.5 + Math.random()`.  JavaScript float arithmetic is modelled
exactly over `ℚ`, the jitter factor passed as a parameter. -/
def tsBackoff (base : ℚ) (attempts : Nat) (jitter : ℚ) : ℚ :=
  min (base * 2 ^ (attempts - 1) * jitter) 30000

/-- Go worker `Config` (`worker/worker.go` lines 26-30). -/
structure Config where
  queueName : String
  interval : Int
  maxRetries : Int
  deriving DecidableEq, Repr

/-- The Go `Worker` (`worker/worker.go` lines 16-23), restricted to the fields
the pure model uses. -/
structure Worker where
  queueName : String
  interval : Int
  maxRetries : Int
  deriving DecidableEq, Repr

/-- Go `worker.New` (`worker/worker.go` lines 33-49): zero-valued `Interval`
becomes 5 s, zero-valued `MaxRetries` becomes 3. -/
def New (config : Config) : Worker :=
  let interval := if config.interval == 0 then 5 * second else config.interval
  let maxRetries := if config.maxRetries == 0 then 3 else config.maxRetries
  { queueName := config.queueName, interval := interval, maxRetries := maxRetries }

/-- The outcome of one handler invocation (`ProcessFunc` returning `error`),
as data: a handler failure is a value, not control flow. -/
inductive HandlerOutcome
  | ok
  | err (msg : String)
  deriving DecidableEq, Repr

/-- What `processNext` did to the claimed item, for stating the worker's
branch behaviour. -/
inductive WorkerAction
  | idle
  | completed (id : Int)
  | failed (id : Int)
  | retried (id : Int) (delay : Int)
  deriving DecidableEq, Repr

/-- Go `processNext` (`worker/worker.go` lines 70-106): dequeue; on empty do
nothing; on handler success Complete; on handler failure Fail when
`item.Attempts >= maxRetries`, else RetryWithDelay with the backoff delay.
Errors from Complete/Fail/RetryWithDelay are only logged. -/
def processNext (w : Worker) (h : List Nat → HandlerOutcome) (s : Store) (now : Int) :
    Store × WorkerAction :=
  match dequeue s w.queueName now with
  | (s1, none) => (s1, .idle)
  | (s1, some item) =>
      match h item.payload with
      | .ok => ((completeGo s1 item.id w.queueName).1, .completed item.id)
      | .err _ =>
          if w.maxRetries ≤ item.attempts then
            ((failGo s1 item.id w.queueName).1, .failed item.id)
          else
            ((retryWithDelayGo s1 item.id w.queueName (backoffGo item.attempts) now).1,
             .retried item.id (backoffGo item.attempts))

/-- The worker loop (`worker/worker.go` lines 52-67): one `processNext` per
ticker tick; the list gives the tick times. -/
def runWorker (w : Worker) (h : List Nat → HandlerOutcome) : Store → List Int → Store
  | s, [] => s
  | s, now :: rest => runWorker w h (processNext w h s now).1 rest

/-- The queue operations a caller can perform against one store, for stating
whole-history invariants. -/
inductive Op
  | enq (qn : String) (payload : List Nat) (now : Int)
  | enqDelay (qn : String) (payload : List Nat) (now delay : Int)
  | deq (qn : String) (now : Int)
  | comp (id : Int) (qn : String)
  | failMark (id : Int) (qn : String)
  | retry (id : Int) (qn : String) (delay now : Int)

/-- Apply one operation to the store, keeping only the state effect. -/
def applyOp (s : Store) : Op → Store
  | .enq qn p now => (enqueue s qn p now).1
  | .enqDelay qn p now d => (enqueueWithDelay s qn p now d).1
  | .deq qn now => (dequeue s qn now).1
  | .comp id qn => (completeGo s id qn).1
  | .failMark id qn => (failGo s id qn).1
  | .retry id qn d now => (retryWithDelayGo s id qn d now).1

/-- Apply a sequence of operations left to right. -/
def applyOps (s : Store) (ops : List Op) : Store :=
  ops.foldl applyOp s

/-- Row `r2` is the later version of row `r1`: same id, attempts not
decreased. -/
def rowLe (r1 r2 : QueueItem) : Prop :=
  r2.id = r1.id ∧ r1.attempts ≤ r2.attempts

/-- The rows of `l1` survive positionally into `l2` with their ids intact and
their attempts never decreased. -/
def attemptsMono (l1 l2 : List QueueItem) : Prop :=
  l1.length ≤ l2.length ∧
  ∀ i (h1 : i < l1.length) (h2 : i < l2.length), rowLe (l1.get ⟨i, h1⟩) (l2.get ⟨i, h2⟩)

/-! ### Helper lemmas -/

theorem eligible_iff {qn : String} {now : Int} {r : QueueItem} :
    eligible qn now r = true ↔
      r.queueName = qn ∧ r.status = "pending" ∧ r.scheduledAt ≤ now := by
  simp [eligible, and_assoc]

theorem mem_selectCandidates {s : Store} {qn : String} {now : Int} {r : QueueItem}
    (hr : r ∈ selectCandidates s qn now) :
    r ∈ s.rows ∧ eligible qn now r = true ∧
      ∀ r2 ∈ s.rows, eligible qn now r2 = true → r.scheduledAt ≤ r2.scheduledAt := by
  unfold selectCandidates at hr
  simp only [List.mem_filter, List.all_eq_true, decide_eq_true_eq] at hr
  obtain ⟨⟨hmem, hel⟩, hmin⟩ := hr
  refine ⟨hmem, hel, fun r2 hmem2 hel2 => ?_⟩
  exact hmin r2 ⟨hmem2, hel2⟩

theorem selectOne_mem {s : Store} {qn : String} {now : Int} {r : QueueItem}
    (h : selectOne s qn now = some r) : r ∈ selectCandidates s qn now := by
  unfold selectOne at h
  exact List.mem_of_mem_head? h

theorem dequeue_eq_some {s : Store} {qn : String} {now : Int} {s' : Store} {it : QueueItem}
    (h : dequeue s qn now = (s', some it)) :
    ∃ r, selectOne s qn now = some r ∧
      it = { r with status := "processing", attempts := r.attempts + 1,
                    lastAttemptAt := some now } ∧
      s' = claimUpdate s r.id qn now := by
  unfold dequeue at h
  cases hsel : selectOne s qn now with
  | none => rw [hsel] at h; simp at h
  | some r =>
      rw [hsel] at h
      simp only [Prod.mk.injEq, Option.some.injEq] at h
      exact ⟨r, rfl, h.2.symm, h.1.symm⟩

/-! ### Claim C10 -/

/-- C10: `worker.New` substitutes the default for a zero-valued configuration
field — `Interval = 0` becomes 5 seconds and `MaxRetries = 0` becomes 3 — so a
worker built by the public constructor never has a retry ceiling of zero. -/
theorem New_zero_defaults (c : Config) :
    (c.interval = 0 → (New c).interval = 5 * second) ∧
    (c.maxRetries = 0 → (New c).maxRetries = 3) ∧
    (New c).maxRetries ≠ 0 := by
  refine ⟨fun h => by simp [New, h], fun h => by simp [New, h], ?_⟩
  by_cases h : c.maxRetries = 0
  · simp [New, h]
  · simp [New, h]

theorem New_zero_defaults_witness :
    (New ⟨"q", 0, 0⟩).interval = 5 * second ∧ (New ⟨"q", 0, 0⟩).maxRetries = 3 :=
  ⟨(New_zero_defaults ⟨"q", 0, 0⟩).1 rfl, (New_zero_defaults ⟨"q", 0, 0⟩).2.1 rfl⟩

/-! ### Claim C4 -/

/-- C4: when no row of the target queue is eligible (`status = pending` and
`scheduled_at ≤ now`), Dequeue returns the distinct empty result (no item, no
error) and leaves the store unchanged. -/
theorem dequeue_no_eligible (s : Store) (qn : String) (now : Int)
    (h : ∀ r ∈ s.rows, eligible qn now r = false) :
    dequeue s qn now = (s, none) := by
  have hel : s.rows.filter (eligible qn now) = [] := by
    rw [List.filter_eq_nil_iff]
    intro r hr
    simp [h r hr]
  unfold dequeue selectOne selectCandidates
  simp [hel]

def wStore4 : Store := ⟨[⟨1, "q", [7], 0, 0, "completed", 1, none⟩], 2⟩

theorem dequeue_no_eligible_witness : dequeue wStore4 "q" 10 = (wStore4, none) :=
  dequeue_no_eligible wStore4 "q" 10 (by decide)

/-! ### Claim C1 -/

def cexProcStore : Store := ⟨[⟨1, "q", [], 0, 0, "processing", 1, none⟩], 2⟩

/-- C1 counterexample: on a row that is no longer pending, the update the
source performs (matching on `id` and `queue_name` only) still rewrites the
row, while an update guarded by `status = pending` as the claim states would
leave it unchanged — so the code's update is not the guarded one. -/
theorem claimUpdate_not_guarded_cex :
    claimUpdate cexProcStore 1 "q" 7 ≠ claimUpdateGuarded cexProcStore 1 "q" 7 := by
  decide

/-- C1 (amended): the Dequeue update is guarded only by `id` and `queue_name`
and its affected-row count is never examined — the item is returned whenever
the SELECT found a row.  Because the update runs in the same atomic unit as the
SELECT, the selected row is still pending there, so on a store with unique ids
the unguarded update the code runs coincides with the guarded update the spec
describes. -/
theorem dequeue_unguarded_update_agrees (s : Store) (qn : String) (now : Int)
    (s' : Store) (it : QueueItem)
    (hnd : (s.rows.map QueueItem.id).Nodup)
    (hd : dequeue s qn now = (s', some it)) :
    s' = claimUpdate s it.id qn now ∧
    claimUpdate s it.id qn now = claimUpdateGuarded s it.id qn now := by
  obtain ⟨r, hsel, hit, hs'⟩ := dequeue_eq_some hd
  obtain ⟨hmem, hel, -⟩ := mem_selectCandidates (selectOne_mem hsel)
  obtain ⟨hqn, hst, -⟩ := eligible_iff.mp hel
  have hid : it.id = r.id := by rw [hit]
  constructor
  · rw [hs', hid]
  · rw [hid]
    unfold claimUpdate claimUpdateGuarded updateWhere
    simp only [Store.mk.injEq, and_true]
    apply List.map_congr_left
    intro r0 hmem0
    by_cases hcm : claimMatch r.id qn r0 = true
    · have hid0 : r0.id = r.id := by
        have := hcm
        simp only [claimMatch, Bool.and_eq_true, beq_iff_eq] at this
        exact this.1
      have : r0 = r := List.inj_on_of_nodup_map hnd hmem0 hmem hid0
      subst this
      simp [hcm, hst]
    · simp [hcm, Bool.eq_false_iff.mpr hcm]

def wStore1 : Store := ⟨[⟨1, "q", [], 0, 0, "pending", 0, none⟩], 2⟩

theorem dequeue_unguarded_update_agrees_witness :
    claimUpdate wStore1 1 "q" 5 = claimUpdateGuarded wStore1 1 "q" 5 :=
  (dequeue_unguarded_update_agrees wStore1 "q" 5 (claimUpdate wStore1 1 "q" 5)
    ⟨1, "q", [], 0, 0, "processing", 1, some 5⟩ (by decide) (by decide)).2

/-! ### Claim C2 -/

def cexRowA : QueueItem := ⟨1, "q", [], 0, 3, "pending", 0, none⟩

def cexRowB : QueueItem := ⟨2, "q", [], 0, 3, "pending", 0, none⟩

def cexTieStore : Store := ⟨[cexRowA, cexRowB], 3⟩

/-- C2 counterexample: two eligible rows tie on the minimal `scheduled_at`; the
source's `ORDER BY scheduled_at ASC LIMIT 1` admits both as results (the query
has no id tiebreaker), so the selection is not pinned to the unique
(scheduled_at, id)-least row and is not deterministic from the query alone. -/
theorem select_tie_not_unique_cex :
    cexRowA ∈ selectCandidates cexTieStore "q" 10 ∧
    cexRowB ∈ selectCandidates cexTieStore "q" 10 ∧
    cexRowA ≠ cexRowB := by
  decide

/-- C2 (amended): every admissible result of the Dequeue SELECT is an eligible
row of the target queue with minimal `scheduled_at` (oldest-eligible-first);
all that is pinned among admissible results is that `scheduled_at` value, so
the selection is deterministic only when a single eligible row attains it. -/
theorem selectCandidates_oldest_first (s : Store) (qn : String) (now : Int) (r : QueueItem)
    (hr : r ∈ selectCandidates s qn now) :
    r ∈ s.rows ∧ r.queueName = qn ∧ r.status = "pending" ∧ r.scheduledAt ≤ now ∧
    (∀ r2 ∈ s.rows, eligible qn now r2 = true → r.scheduledAt ≤ r2.scheduledAt) ∧
    (∀ r2 ∈ selectCandidates s qn now, r2.scheduledAt = r.scheduledAt) := by
  obtain ⟨hmem, hel, hmin⟩ := mem_selectCandidates hr
  obtain ⟨h1, h2, h3⟩ := eligible_iff.mp hel
  refine ⟨hmem, h1, h2, h3, hmin, ?_⟩
  intro r2 hr2
  obtain ⟨hmem2, hel2, hmin2⟩ := mem_selectCandidates hr2
  exact le_antisymm (hmin2 r hmem hel) (hmin r2 hmem2 hel2)

theorem selectCandidates_oldest_first_witness :
    cexRowA.queueName = "q" ∧ cexRowA.status = "pending" :=
  let h := selectCandidates_oldest_first cexTieStore "q" 10 cexRowA (by decide)
  ⟨h.2.1, h.2.2.1⟩

/-! ### Claim C3 -/

/-- C3: when Claim succeeds on an item whose stored attempts count was `a`, the
returned item has `status = processing`, `attempts = a + 1` and
`last_attempt_at` set to the claim time, and the stored row with that id has
exactly the same post-update values. -/
theorem dequeue_success_post (s : Store) (qn : String) (now : Int) (s' : Store) (it : QueueItem)
    (hnd : (s.rows.map QueueItem.id).Nodup)
    (hd : dequeue s qn now = (s', some it)) :
    it.status = "processing" ∧ it.lastAttemptAt = some now ∧
    (∃ r ∈ s.rows, r.id = it.id ∧ r.queueName = qn ∧ r.status = "pending" ∧
      it.attempts = r.attempts + 1 ∧ it.payload = r.payload) ∧
    (∀ r' ∈ s'.rows, r'.id = it.id →
      r'.status = "processing" ∧ r'.attempts = it.attempts ∧ r'.lastAttemptAt = some now) := by
  obtain ⟨r, hsel, hit, hs'⟩ := dequeue_eq_some hd
  obtain ⟨hmem, hel, -⟩ := mem_selectCandidates (selectOne_mem hsel)
  obtain ⟨hqn, hst, -⟩ := eligible_iff.mp hel
  subst hit
  refine ⟨rfl, rfl, ⟨r, hmem, rfl, hqn, hst, rfl, rfl⟩, ?_⟩
  intro r' hr' hid'
  rw [hs'] at hr'
  unfold claimUpdate updateWhere at hr'
  simp only [List.mem_map] at hr'
  obtain ⟨r0, hmem0, hr0⟩ := hr'
  by_cases hcm : claimMatch r.id qn r0 = true
  · rw [if_pos hcm] at hr0
    have hid0 : r0.id = r.id := by
      have := hcm
      simp only [claimMatch, Bool.and_eq_true, beq_iff_eq] at this
      exact this.1
    have hr0r : r0 = r := List.inj_on_of_nodup_map hnd hmem0 hmem hid0
    subst hr0r
    rw [← hr0]
    exact ⟨rfl, rfl, rfl⟩
  · rw [if_neg hcm] at hr0
    have hid0 : r0.id = r.id := by rw [hr0]; simpa using hid'
    have hr0r : r0 = r := List.inj_on_of_nodup_map hnd hmem0 hmem hid0
    exact absurd (by simp [claimMatch, hr0r, hqn]) hcm

theorem dequeue_success_post_witness :
    (⟨1, "q", [], 0, 0, "processing", 1, some 5⟩ : QueueItem).status = "processing" ∧
    (⟨1, "q", [], 0, 0, "processing", 1, some 5⟩ : QueueItem).lastAttemptAt = some 5 :=
  ⟨(dequeue_success_post wStore1 "q" 5 (claimUpdate wStore1 1 "q" 5)
      ⟨1, "q", [], 0, 0, "processing", 1, some 5⟩ (by decide) (by decide)).1,
   (dequeue_success_post wStore1 "q" 5 (claimUpdate wStore1 1 "q" 5)
      ⟨1, "q", [], 0, 0, "processing", 1, some 5⟩ (by decide) (by decide)).2.1⟩

/-! ### Claim C5 -/

def cexMatchStore : Store := ⟨[⟨1, "q", [], 0, 0, "processing", 1, none⟩], 2⟩

def cexEmptyStore : Store := ⟨[], 1⟩

/-- C5 counterexample: the Go `Complete` discards the UPDATE's affected-row
count (`_, err := q.db.Exec(...)`) and returns only a nil error, so its
caller-visible result is identical whether or not a row was matched — it does
not return a boolean telling whether a row was matched. -/
theorem completeGo_no_matched_bool_cex :
    (completeGo cexMatchStore 1 "q").2 = (completeGo cexEmptyStore 1 "q").2 ∧
    matchedCount cexMatchStore 1 "q" ≠ 0 ∧
    matchedCount cexEmptyStore 1 "q" = 0 := by
  decide

/-- C5 (amended): Complete, Fail and RetryWithDelay select rows by `id` and
`queue_name` only and apply their status write unconditionally on the row's
current status; the TypeScript implementations return whether a row was
matched, while the Go implementations return only a nil error, discarding the
matched-row count. -/
theorem transitions_unconditional (s : Store) (id : Int) (qn : String) (dl now : Int)
    (r : QueueItem) (hr : r ∈ s.rows) :
    (claimMatch id qn r = true →
      { r with status := "completed" } ∈ (completeGo s id qn).1.rows ∧
      { r with status := "failed" } ∈ (failGo s id qn).1.rows ∧
      { r with status := "pending", scheduledAt := now + dl } ∈
        (retryWithDelayGo s id qn dl now).1.rows) ∧
    (claimMatch id qn r = false →
      r ∈ (completeGo s id qn).1.rows ∧ r ∈ (failGo s id qn).1.rows ∧
      r ∈ (retryWithDelayGo s id qn dl now).1.rows) ∧
    ((completeTs s id qn).2 = true ↔ matchedCount s id qn ≠ 0) ∧
    ((failTs s id qn).2 = true ↔ matchedCount s id qn ≠ 0) ∧
    ((retryWithDelayTs s id qn dl now).2 = true ↔ matchedCount s id qn ≠ 0) := by
  refine ⟨fun hcm => ⟨?_, ?_, ?_⟩, fun hcm => ⟨?_, ?_, ?_⟩, ?_, ?_, ?_⟩
  · unfold completeGo updateWhere
    simp only [List.mem_map]
    exact ⟨r, hr, by simp [hcm]⟩
  · unfold failGo updateWhere
    simp only [List.mem_map]
    exact ⟨r, hr, by simp [hcm]⟩
  · unfold retryWithDelayGo updateWhere
    simp only [List.mem_map]
    exact ⟨r, hr, by simp [hcm]⟩
  · unfold completeGo updateWhere
    simp only [List.mem_map]
    exact ⟨r, hr, by simp [hcm]⟩
  · unfold failGo updateWhere
    simp only [List.mem_map]
    exact ⟨r, hr, by simp [hcm]⟩
  · unfold retryWithDelayGo updateWhere
    simp only [List.mem_map]
    exact ⟨r, hr, by simp [hcm]⟩
  · simp [completeTs, updateWhere, matchedCount, Nat.pos_iff_ne_zero]
  · simp [failTs, updateWhere, matchedCount, Nat.pos_iff_ne_zero]
  · simp [retryWithDelayTs, updateWhere, matchedCount, Nat.pos_iff_ne_zero]

theorem transitions_unconditional_witness :
    (⟨1, "q", [], 0, 0, "completed", 1, none⟩ : QueueItem) ∈
      (completeGo cexMatchStore 1 "q").1.rows :=
  ((transitions_unconditional cexMatchStore 1 "q" 0 0
      ⟨1, "q", [], 0, 0, "processing", 1, none⟩ (by decide)).1 (by decide)).1

/-! ### Claim C9 -/

/-- C9: enqueueing a payload into a fresh queue and then claiming at any time
not earlier than the enqueue returns an item carrying that payload with
`attempts = 1` and `status = processing`. -/
theorem enqueue_then_dequeue (qn : String) (p : List Nat) (t t' : Int) (h : t ≤ t') :
    (dequeue (enqueue ⟨[], 1⟩ qn p t).1 qn t').2 =
      some ⟨1, qn, p, t, t, "processing", 1, some t'⟩ := by
  simp [enqueue, dequeue, selectOne, selectCandidates, eligible, claimUpdate, updateWhere,
    List.filter, h]

theorem enqueue_then_dequeue_witness :
    (dequeue (enqueue ⟨[], 1⟩ "q" [42] 3).1 "q" 3).2 =
      some ⟨1, "q", [42], 3, 3, "processing", 1, some 3⟩ :=
  enqueue_then_dequeue "q" [42] 3 3 le_rfl

/-! ### Claim C6 -/

theorem attemptsMono_refl (l : List QueueItem) : attemptsMono l l :=
  ⟨le_refl _, fun _ _ _ => ⟨rfl, le_refl _⟩⟩

theorem attemptsMono_trans {l1 l2 l3 : List QueueItem}
    (h12 : attemptsMono l1 l2) (h23 : attemptsMono l2 l3) : attemptsMono l1 l3 := by
  obtain ⟨hl12, hr12⟩ := h12
  obtain ⟨hl23, hr23⟩ := h23
  refine ⟨le_trans hl12 hl23, fun i h1 h3 => ?_⟩
  have h2 : i < l2.length := lt_of_lt_of_le h1 hl12
  obtain ⟨hida, hata⟩ := hr12 i h1 h2
  obtain ⟨hidb, hatb⟩ := hr23 i h2 h3
  exact ⟨hidb.trans hida, le_trans hata hatb⟩

theorem attemptsMono_updateWhere (s : Store) (p : QueueItem → Bool) (f : QueueItem → QueueItem)
    (hf : ∀ r, (f r).id = r.id ∧ r.attempts ≤ (f r).attempts) :
    attemptsMono s.rows (updateWhere s p f).1.rows := by
  unfold updateWhere
  refine ⟨by simp, fun i h1 h2 => ?_⟩
  have hget : (s.rows.map fun r => if p r then f r else r).get ⟨i, h2⟩ =
      (fun r => if p r then f r else r) (s.rows.get ⟨i, h1⟩) := by
    simp [List.get_map]
  show rowLe (s.rows.get ⟨i, h1⟩) ((s.rows.map fun r => if p r then f r else r).get ⟨i, h2⟩)
  rw [hget]
  by_cases hp : p (s.rows.get ⟨i, h1⟩) = true
  · simp only [hp, if_true]
    exact ⟨(hf _).1, (hf _).2⟩
  · simp only [hp, if_false]
    exact ⟨rfl, le_refl _⟩

theorem attemptsMono_append (l : List QueueItem) (r : QueueItem) :
    attemptsMono l (l ++ [r]) := by
  refine ⟨by simp, fun i h1 h2 => ?_⟩
  have hget : (l ++ [r]).get ⟨i, h2⟩ = l.get ⟨i, h1⟩ := List.get_append i h1
  rw [hget]
  exact ⟨rfl, le_refl _⟩

theorem attemptsMono_claimUpdate (s : Store) (id : Int) (qn : String) (now : Int) :
    attemptsMono s.rows (claimUpdate s id qn now).rows :=
  attemptsMono_updateWhere s _ _ (fun r => ⟨rfl, by show r.attempts ≤ r.attempts + 1; omega⟩)

theorem attemptsMono_applyOp (s : Store) (op : Op) :
    attemptsMono s.rows (applyOp s op).rows := by
  cases op with
  | enq qn p now => exact attemptsMono_append _ _
  | enqDelay qn p now d => exact attemptsMono_append _ _
  | deq qn now =>
      show attemptsMono s.rows (dequeue s qn now).1.rows
      unfold dequeue
      cases selectOne s qn now with
      | none => exact attemptsMono_refl _
      | some r => exact attemptsMono_claimUpdate s r.id qn now
  | comp id qn => exact attemptsMono_updateWhere s _ _ (fun r => ⟨rfl, le_refl _⟩)
  | failMark id qn => exact attemptsMono_updateWhere s _ _ (fun r => ⟨rfl, le_refl _⟩)
  | retry id qn d now => exact attemptsMono_updateWhere s _ _ (fun r => ⟨rfl, le_refl _⟩)

theorem attemptsMono_applyOps (s : Store) (ops : List Op) :
    attemptsMono s.rows (applyOps s ops).rows := by
  induction ops generalizing s with
  | nil => exact attemptsMono_refl _
  | cons op rest ih =>
      exact attemptsMono_trans (attemptsMono_applyOp s op) (ih (applyOp s op))

theorem dequeue_attempts_exact (s : Store) (qn : String) (now : Int) (s' : Store)
    (it : QueueItem) (hd : dequeue s qn now = (s', some it)) :
    ∀ i (h1 : i < s.rows.length) (h2 : i < s'.rows.length),
      (s'.rows.get ⟨i, h2⟩).attempts =
        (s.rows.get ⟨i, h1⟩).attempts +
          (if claimMatch it.id qn (s.rows.get ⟨i, h1⟩) = true then 1 else 0) := by
  obtain ⟨r, hsel, hit, hs'⟩ := dequeue_eq_some hd
  have hid : it.id = r.id := by rw [hit]
  subst hs'
  intro i h1 h2
  rw [hid]
  have hget : (claimUpdate s r.id qn now).rows.get ⟨i, h2⟩ =
      (fun r0 => if claimMatch r.id qn r0 then
        { r0 with status := "processing", attempts := r0.attempts + 1,
                  lastAttemptAt := some now } else r0) (s.rows.get ⟨i, h1⟩) := by
    simp [claimUpdate, updateWhere, List.get_map]
  rw [hget]
  by_cases hcm : claimMatch r.id qn (s.rows.get ⟨i, h1⟩) = true
  · simp only [List.get_eq_getElem] at hcm ⊢
    simp [hcm]
  · simp only [List.get_eq_getElem] at hcm ⊢
    simp [hcm]

theorem updateWhere_attempts_eq (s : Store) (p : QueueItem → Bool) (f : QueueItem → QueueItem)
    (hf : ∀ r, (f r).attempts = r.attempts)
    (i : Nat) (h1 : i < s.rows.length) (h2 : i < (updateWhere s p f).1.rows.length) :
    ((updateWhere s p f).1.rows.get ⟨i, h2⟩).attempts = (s.rows.get ⟨i, h1⟩).attempts := by
  have hget : (updateWhere s p f).1.rows.get ⟨i, h2⟩ =
      (fun r => if p r then f r else r) (s.rows.get ⟨i, h1⟩) := by
    simp [updateWhere, List.get_map]
  rw [hget]
  by_cases hp : p (s.rows.get ⟨i, h1⟩) = true
  · simp only [List.get_eq_getElem] at hp ⊢
    simp [hp, hf]
  · simp only [List.get_eq_getElem] at hp ⊢
    simp [hp]

/-- C6: over every sequence of queue operations, row ids are stable and a
row's attempts field never decreases; a successful Claim adds exactly one to
the attempts of the rows its UPDATE matches and leaves all others unchanged;
Complete, Fail and RetryWithDelay change no row's attempts. -/
theorem attempts_never_decrease :
    (∀ (s : Store) (ops : List Op), attemptsMono s.rows (applyOps s ops).rows) ∧
    (∀ (s : Store) (qn : String) (now : Int) (s' : Store) (it : QueueItem),
      dequeue s qn now = (s', some it) →
      ∀ i (h1 : i < s.rows.length) (h2 : i < s'.rows.length),
        (s'.rows.get ⟨i, h2⟩).attempts =
          (s.rows.get ⟨i, h1⟩).attempts +
            (if claimMatch it.id qn (s.rows.get ⟨i, h1⟩) = true then 1 else 0)) ∧
    (∀ (s : Store) (id : Int) (qn : String) (dl now : Int) (i : Nat)
      (h1 : i < s.rows.length)
      (hc : i < (completeGo s id qn).1.rows.length)
      (hf : i < (failGo s id qn).1.rows.length)
      (hrr : i < (retryWithDelayGo s id qn dl now).1.rows.length),
        ((completeGo s id qn).1.rows.get ⟨i, hc⟩).attempts = (s.rows.get ⟨i, h1⟩).attempts ∧
        ((failGo s id qn).1.rows.get ⟨i, hf⟩).attempts = (s.rows.get ⟨i, h1⟩).attempts ∧
        ((retryWithDelayGo s id qn dl now).1.rows.get ⟨i, hrr⟩).attempts =
          (s.rows.get ⟨i, h1⟩).attempts) :=
  ⟨attemptsMono_applyOps,
   dequeue_attempts_exact,
   fun s id qn dl now i h1 hc hf hrr =>
     ⟨updateWhere_attempts_eq s (claimMatch id qn)
        (fun r => { r with status := "completed" }) (fun _ => rfl) i h1 hc,
      updateWhere_attempts_eq s (claimMatch id qn)
        (fun r => { r with status := "failed" }) (fun _ => rfl) i h1 hf,
      updateWhere_attempts_eq s (claimMatch id qn)
        (fun r => { r with status := "pending", scheduledAt := now + dl })
        (fun _ => rfl) i h1 hrr⟩⟩

theorem attempts_never_decrease_witness :
    ((claimUpdate wStore1 1 "q" 5).rows.get ⟨0, by decide⟩).attempts =
      (wStore1.rows.get ⟨0, by decide⟩).attempts + 1 := by
  have h := attempts_never_decrease.2.1 wStore1 "q" 5 (claimUpdate wStore1 1 "q" 5)
    ⟨1, "q", [], 0, 0, "processing", 1, some 5⟩ (by decide) 0 (by decide) (by decide)
  simpa using h

/-! ### Claim C7 -/

theorem wrap64_eq_self {x : Int} (h0 : 0 ≤ x) (h1 : x < 2 ^ 63) : wrap64 x = x := by
  unfold wrap64
  have h63 : (2 : Int) ^ 63 = 9223372036854775808 := by norm_num
  have h64 : (2 : Int) ^ 64 = 18446744073709551616 := by norm_num
  rw [Int.emod_eq_of_lt (by omega) (by omega)]
  omega

theorem wrap64_range (x : Int) : -(2 ^ 63) ≤ wrap64 x ∧ wrap64 x < 2 ^ 63 := by
  have h63 : (2 : Int) ^ 63 = 9223372036854775808 := by norm_num
  have h64 : (2 : Int) ^ 64 = 18446744073709551616 := by norm_num
  unfold wrap64
  have hlo := Int.emod_nonneg (x + 2 ^ 63) (by norm_num : (2 : Int) ^ 64 ≠ 0)
  have hhi := Int.emod_lt_of_pos (x + 2 ^ 63) (by norm_num : (0 : Int) < 2 ^ 64)
  omega

/-- C7 counterexample: at post-claim attempts = 34 (reached whenever
`MaxRetries` exceeds 34) the Go computation
`time.Duration(1<<uint(attempts)) * time.Second` overflows int64: the applied
delay is negative, not base_delay * 2^(34-1) with base_delay = 2 seconds. -/
theorem backoffGo_overflow_cex :
    backoffGo 34 < 0 ∧ backoffGo 34 ≠ 2 * second * 2 ^ 33 := by
  decide

/-- C7 (amended): for post-claim attempts `a` with 1 ≤ a ≤ 33, the Go worker's
retry delay equals base_delay * 2^(a-1) with base_delay = 2 seconds (that is,
2^a seconds); for every a ≥ 34 the 64-bit wrapped result differs from that
formula (negative at a = 34 itself).  The TypeScript worker's delay equals
backoffDelay * 2^(a-1) whenever the jitter factor is 1 and the 30 s cap does
not bind (jitter and cap being the optional refinements). -/
theorem backoff_exponential :
    (∀ a : Nat, 1 ≤ a → a ≤ 33 → backoffGo (a : Int) = 2 * second * 2 ^ (a - 1)) ∧
    (∀ a : Nat, 1 ≤ a → ∀ base : ℚ, 0 ≤ base → base * 2 ^ (a - 1) ≤ 30000 →
      tsBackoff base a 1 = base * 2 ^ (a - 1)) ∧
    (∀ a : Nat, 34 ≤ a → backoffGo (a : Int) ≠ 2 * second * 2 ^ (a - 1)) := by
  refine ⟨fun a h1 h2 => ?_, fun a h1 base hb hcap => ?_, fun a hb => ?_⟩
  · have hcond : (0 : Int) ≤ (a : Int) ∧ (a : Int) < 64 :=
      ⟨by positivity, by exact_mod_cast lt_of_le_of_lt h2 (by norm_num)⟩
    unfold backoffGo
    rw [if_pos hcond, Int.toNat_natCast]
    have hle : (2 : Int) ^ a ≤ 2 ^ 33 := pow_le_pow_right₀ (by norm_num) h2
    have hw1 : wrap64 ((2 : Int) ^ a) = 2 ^ a :=
      wrap64_eq_self (by positivity) (lt_of_le_of_lt hle (by norm_num))
    rw [hw1]
    have hsec : (0 : Int) < second := by norm_num [second]
    have hle2 : (2 : Int) ^ a * second ≤ 2 ^ 33 * second :=
      mul_le_mul_of_nonneg_right hle (le_of_lt hsec)
    have hw2 : wrap64 ((2 : Int) ^ a * second) = 2 ^ a * second :=
      wrap64_eq_self (mul_nonneg (by positivity) (le_of_lt hsec))
        (lt_of_le_of_lt hle2 (by norm_num [second]))
    rw [hw2]
    have ha : a - 1 + 1 = a := Nat.sub_add_cancel h1
    calc (2 : Int) ^ a * second = 2 ^ (a - 1 + 1) * second := by rw [ha]
      _ = 2 * second * 2 ^ (a - 1) := by rw [pow_succ]; ring
  · unfold tsBackoff
    rw [mul_one]
    exact min_eq_left hcap
  · have hlt : backoffGo (a : Int) < 2 ^ 63 := by
      unfold backoffGo
      exact (wrap64_range _).2
    have h33 : (2 : Int) ^ 33 ≤ 2 ^ (a - 1) := pow_le_pow_right₀ (by norm_num) (by omega)
    have hform : (2 : Int) ^ 63 < 2 * second * 2 ^ (a - 1) := by
      have hmul : (2 : Int) * second * 2 ^ 33 ≤ 2 * second * 2 ^ (a - 1) :=
        mul_le_mul_of_nonneg_left h33 (by norm_num [second])
      have hlit : (2 : Int) ^ 63 < 2 * second * 2 ^ 33 := by norm_num [second]
      omega
    omega

theorem backoff_exponential_witness :
    backoffGo 1 = 2 * second * 2 ^ 0 ∧ tsBackoff 5000 1 1 = 5000 * 2 ^ 0 ∧
    backoffGo 34 ≠ 2 * second * 2 ^ 33 :=
  ⟨backoff_exponential.1 1 le_rfl (by norm_num),
   backoff_exponential.2.1 1 le_rfl 5000 (by norm_num) (by norm_num),
   backoff_exponential.2.2 34 le_rfl⟩

/-! ### Claim C8 -/

/-- C8: when the handler fails on a claimed item, `processNext` performs
exactly one of Fail (when the item's post-claim attempts have reached the
retry ceiling) or RetryWithDelay with the backoff of those post-claim
attempts; the handler failure is a value handled inside `processNext`, and the
worker loop always continues with the next tick. -/
theorem processNext_handler_failure (w : Worker) (h : List Nat → HandlerOutcome)
    (s : Store) (now : Int) (s1 : Store) (it : QueueItem) (msg : String)
    (hd : dequeue s w.queueName now = (s1, some it))
    (hh : h it.payload = .err msg) :
    (w.maxRetries ≤ it.attempts →
      processNext w h s now = ((failGo s1 it.id w.queueName).1, .failed it.id)) ∧
    (it.attempts < w.maxRetries →
      processNext w h s now =
        ((retryWithDelayGo s1 it.id w.queueName (backoffGo it.attempts) now).1,
         .retried it.id (backoffGo it.attempts))) ∧
    (∀ rest : List Int,
      runWorker w h s (now :: rest) = runWorker w h (processNext w h s now).1 rest) := by
  refine ⟨fun hc => ?_, fun hc => ?_, fun rest => rfl⟩
  · unfold processNext
    rw [hd]
    simp [hh, hc]
  · unfold processNext
    rw [hd]
    simp [hh, not_le.mpr hc]

def wWorker : Worker := New ⟨"q", 0, 0⟩

def wHandlerFail : List Nat → HandlerOutcome := fun _ => .err "boom"

theorem processNext_handler_failure_witness :
    processNext wWorker wHandlerFail wStore1 5 =
      ((retryWithDelayGo (claimUpdate wStore1 1 "q" 5) 1 "q" (backoffGo 1) 5).1,
       .retried 1 (backoffGo 1)) :=
  (processNext_handler_failure wWorker wHandlerFail wStore1 5 (claimUpdate wStore1 1 "q" 5)
    ⟨1, "q", [], 0, 0, "processing", 1, some 5⟩ "boom" (by decide) rfl).2.1 (by decide)

end LaQueue
